import Mathlib

/-!
Verification of the treble HCI UART/TCP transport layer
(`treble/hci/transport/uart.py`).

The development shallowly embeds the stream framing state machine
(`StreamTransport._rx`, `StreamTransport._prepend_ind`), the serial reader
loop (`UART._rx_thread_fn`) and the lifecycle guards of `UART` and
`UARToTCP` (`open`, `send`, `recv`, `close`), and proves the spec claims
about them.  Byte strings are `List Nat`; Python exceptions are modelled
by explicit error results.
-/

namespace Treble

/-- Packet variants.  The repository dispatches on the classes `HCICmd`,
`HCIEvt`, `HCIACLData`; SCO has an indicator value but no packet class. -/
inductive PktKind where
  | cmd
  | evt
  | acl
deriving DecidableEq

/-- A packet: its variant together with its growable byte buffer
(`pkt.data`).  While a packet is being assembled the buffer holds the
accumulated header bytes followed by the accumulated payload bytes. -/
structure Packet where
  kind : PktKind
  data : List Nat
deriving DecidableEq

/-- Modelled from the spec: the packet classes (`treble.packet.HCIACLData`,
`treble.hci.evt.HCIEvt`, `treble.hci.cmd.HCICmd`) are not under `src/`.
The spec fixes only their interface: `header_len()` is a fixed size per
variant, and after the header bytes are accumulated `unpack_header()` /
`payload_len()` determine the declared payload length from the header
bytes.  This structure abstracts exactly that interface; the theorems
below quantify over it. -/
structure PktModel where
  aclHdrLen : Nat
  evtHdrLen : Nat
  aclPayloadLen : List Nat → Nat
  evtPayloadLen : List Nat → Nat

/-- Fixed header size of a packet variant (`header_len()`).  Command
packets are never constructed by the decoder (outbound only), so the
value for `cmd` is never used by the embedded code. -/
def PktModel.hdrLen (m : PktModel) : PktKind → Nat
  | PktKind.acl => m.aclHdrLen
  | PktKind.evt => m.evtHdrLen
  | PktKind.cmd => 0

/-- `pkt.header_len()`. -/
def Packet.headerLen (m : PktModel) (p : Packet) : Nat :=
  m.hdrLen p.kind

/-- `pkt.unpack_header(); pkt.payload_len()`: the declared payload length,
read from the accumulated header bytes. -/
def Packet.payloadLen (m : PktModel) (p : Packet) : Nat :=
  match p.kind with
  | PktKind.acl => m.aclPayloadLen p.data
  | PktKind.evt => m.evtPayloadLen p.data
  | PktKind.cmd => 0

/-- Packet indicators (class attributes of `StreamTransport`). -/
def IND_NONE : Nat := 0x0

def IND_CMD : Nat := 0x1

def IND_ACL : Nat := 0x2

def IND_SCO : Nat := 0x3

def IND_EVT : Nat := 0x4

/-- The wire indicator byte of a packet variant. -/
def PktKind.ind : PktKind → Nat
  | PktKind.cmd => IND_CMD
  | PktKind.acl => IND_ACL
  | PktKind.evt => IND_EVT

/-- The RX state of `StreamTransport`: `_rx_state`, `_rx_pkt`,
`_rx_remain`, `_rx_hdr`. -/
structure RxState where
  rxState : Nat
  rxPkt : Option Packet
  rxRemain : Nat
  rxHdr : Bool
deriving DecidableEq

/-- The state set by `StreamTransport.__init__`: no packet in flight. -/
def idleRx : RxState := ⟨IND_NONE, none, 0, false⟩

/-- Result of one `_rx` call: `pending` models `return None`, `pkt p`
models `return pkt`, and `err` models an exception escaping the call
(the `raise RuntimeError` on a bad indicator; the arms marked
unreachable below model attribute errors on absent packets). -/
inductive RxOut where
  | pending
  | pkt (p : Packet)
  | err
deriving DecidableEq

/-- `StreamTransport._rx(data)`: the while loop over the chunk.  The
returned state is the transport RX state after the call; the `RxOut` is
what the call returns (or raises). -/
def rx (m : PktModel) (s : RxState) (data : List Nat) : RxState × RxOut :=
  match data with
  | [] => (s, RxOut.pending)  -- while(dlen) exhausted: implicit return None
  | b :: rest =>
    -- copy as much as available (a no-op when no bytes are required)
    let clen := min s.rxRemain (b :: rest).length
    let s1 : RxState :=
      { s with
        rxPkt := s.rxPkt.map fun p => { p with data := p.data ++ (b :: rest).take clen },
        rxRemain := s.rxRemain - clen }
    if 0 < s1.rxRemain then
      -- more bytes required
      (s1, RxOut.pending)
    else if s1.rxState = IND_NONE then
      let r := (b :: rest).drop clen
      if _hre : r = [] then
        -- never reached from states satisfying the codec invariant: at a
        -- frame boundary rxRemain is 0, so clen = 0 and at least b remains
        (s1, RxOut.err)
      else
        -- the source reads `ind = data[0]`; this branch only runs on the
        -- first loop iteration of a call, where idx = 0 and data[0] is the
        -- head of the remaining bytes
        let c := r.headD 0
        if c = IND_ACL then
          rx m ⟨c, some ⟨PktKind.acl, []⟩, Packet.headerLen m ⟨PktKind.acl, []⟩, s1.rxHdr⟩ r.tail
        else if c = IND_EVT then
          rx m ⟨c, some ⟨PktKind.evt, []⟩, Packet.headerLen m ⟨PktKind.evt, []⟩, s1.rxHdr⟩ r.tail
        else
          -- raise RuntimeError: unexpected or invalid indicator; note the
          -- source assigns `self._rx_state = ind` before raising
          ({ s1 with rxState := c }, RxOut.err)
    else if _hh : s1.rxHdr = false then
      -- header complete, parse it; both indicator branches of the source
      -- assign `self._rx_remain = self._rx_pkt.payload_len()` identically
      match s1.rxPkt with
      | none => (s1, RxOut.err)  -- unreachable; AttributeError in the source
      | some p =>
        rx m { s1 with rxRemain := Packet.payloadLen m p, rxHdr := true }
          ((b :: rest).drop clen)
    else
      match s1.rxPkt with
      | none => (s1, RxOut.err)  -- unreachable; AttributeError in the source
      | some p =>
        -- packet complete: hand it out and reset the codec state
        ({ s1 with rxState := IND_NONE, rxPkt := none, rxHdr := false }, RxOut.pkt p)
termination_by 2 * data.length + (if s.rxHdr then 0 else 1)
decreasing_by
  all_goals simp_all [List.length_tail, List.length_drop]
  all_goals omega

/-- Feeding a sequence of chunks to `_rx` in order, as the reader
context does: collect every packet a call returns, stop if a call
raises (the `Bool` flags that a call raised). -/
def rxFeed (m : PktModel) (s : RxState) : List (List Nat) → RxState × List Packet × Bool
  | [] => (s, [], false)
  | c :: cs =>
    match rx m s c with
    | (s2, RxOut.pending) => rxFeed m s2 cs
    | (s2, RxOut.pkt p) =>
      let t := rxFeed m s2 cs
      (t.1, p :: t.2.1, t.2.2)
    | (s2, RxOut.err) => (s2, [], true)

/-- Python exceptions raised by the embedded code. -/
inductive PyErr where
  | osErrEEXIST
  | osErrENODEV
  | rtMissingBaudrate
  | rtInvalidBaudrate
  | typeErr
  | nameErr
deriving DecidableEq

/-- `StreamTransport._prepend_ind(pkt)`: dispatch on the packet class,
prepend the indicator byte.  The fallthrough arm of the source is
`raise RuntimeException('invalid packet type')`: the name
`RuntimeException` is undefined in Python, so what actually escapes is a
NameError, not the intended RuntimeError. -/
def prependInd (p : Packet) : Except PyErr (List Nat) :=
  match p.kind with
  | PktKind.acl => Except.ok (IND_ACL :: p.data)
  | PktKind.cmd => Except.ok (IND_CMD :: p.data)
  | PktKind.evt => Except.error PyErr.nameErr

/-- The lifecycle flags shared by `UART` and `UARToTCP`: `self._open`
and `self._closing`.  The spec state Closed is `⟨false, false⟩`, Open is
`isOpen = true`, Closing is `closing = true` with `isOpen = false`. -/
structure ConnSt where
  isOpen : Bool
  closing : Bool
deriving DecidableEq

/-- `UART.INIT_BAUDRATE`. -/
def INIT_BAUDRATE : Nat := 9600

/-- Result of `UART.open` in the model: either an exception raised
before any device I/O, or `devIo b`, marking that control reached
`serial.Serial(dev, baudrate=9600)` followed by the switch to the
requested operating baud rate `b` (two-step negotiation); on that path
the source then sets `_open = True` and starts the reader thread. -/
inductive OpenRes where
  | err (e : PyErr)
  | devIo (operBaud : Nat)
deriving DecidableEq

/-- `UART.open(dev, **kwargs)`.  The guard and the baudrate checks run
before any device I/O; `_open`/`_closing` are not assigned on any of the
error paths (the source assigns `_open = True` only after the device is
opened).  `baudrate = none` models a missing kwarg; `if not
self._baudrate` is falsy for both `None` and `0`. -/
def uartOpen (st : ConnSt) (baudrate : Option Nat) : ConnSt × OpenRes :=
  if st.isOpen || st.closing then (st, OpenRes.err PyErr.osErrEEXIST)
  else
    match baudrate with
    | none => (st, OpenRes.err PyErr.rtMissingBaudrate)
    | some b =>
      if b = 0 then (st, OpenRes.err PyErr.rtMissingBaudrate)
      else if b = INIT_BAUDRATE then (st, OpenRes.err PyErr.rtInvalidBaudrate)
      else ({ st with isOpen := true }, OpenRes.devIo b)

/-- `UART.send(pkt)`: the state guard, then encode and write the framed
bytes (the write itself is assumed to succeed; `send` never assigns the
lifecycle flags). -/
def uartSend (st : ConnSt) (p : Packet) : ConnSt × Except PyErr (List Nat) :=
  if !st.isOpen then (st, Except.error PyErr.osErrENODEV)
  else (st, prependInd p)

/-- `await self._rx_q.get()`: pop the head of the packet queue; `none`
means the queue is empty and the caller stays suspended. -/
def rxQGet (q : List (Option Packet)) :
    Option ((Option Packet) × List (Option Packet)) :=
  match q with
  | [] => none
  | x :: r => some (x, r)

/-- `UART.recv(timeout)`: the state guard, then pop the queue (the
`timeout` parameter is accepted but never used by the source). -/
def uartRecv (st : ConnSt) (q : List (Option Packet)) :
    ConnSt × Except PyErr (Option ((Option Packet) × List (Option Packet))) :=
  if !st.isOpen then (st, Except.error PyErr.osErrENODEV)
  else (st, Except.ok (rxQGet q))

/-- Modelled external fact: `UART.close` opens with
`async with self._tx_lock():` — it CALLS the `asyncio.Lock` object.
Lock instances are not callable, so evaluating the context-manager
expression raises TypeError immediately.  (Contrast `UART.send`, which
correctly writes `async with self._tx_lock:`.) -/
def txLockCall : Except PyErr Unit := Except.error PyErr.typeErr

/-- `UART.close()`.  The first statement evaluates `self._tx_lock()`,
which raises TypeError before any of the body runs, so the state is
untouched.  (Even if the lock were entered, the body would set
`_closing`/`_open` and then raise TypeError again at
`run_in_executor(None, self._rx_thread.join())`, which passes the result
of the eagerly-evaluated `join()` — `None` — as the callable.) -/
def uartClose (st : ConnSt) : ConnSt × Except PyErr Unit :=
  match txLockCall with
  | Except.error e => (st, Except.error e)
  | Except.ok _ =>
    ({ st with isOpen := false, closing := true }, Except.error PyErr.typeErr)

/-- `UARToTCP.open(dev)`: the same lifecycle guard; on the non-error
path an outbound TCP connection is established and `_open` is set. -/
def tcpOpen (st : ConnSt) : ConnSt × Except PyErr Unit :=
  if st.isOpen || st.closing then (st, Except.error PyErr.osErrEEXIST)
  else ({ st with isOpen := true }, Except.ok ())

/-- `UARToTCP.send(pkt)`: same guard and body as `UART.send`. -/
def tcpSend (st : ConnSt) (p : Packet) : ConnSt × Except PyErr (List Nat) :=
  if !st.isOpen then (st, Except.error PyErr.osErrENODEV)
  else (st, prependInd p)

/-- `UARToTCP.recv(timeout)`: same guard and body as `UART.recv`. -/
def tcpRecv (st : ConnSt) (q : List (Option Packet)) :
    ConnSt × Except PyErr (Option ((Option Packet) × List (Option Packet))) :=
  if !st.isOpen then (st, Except.error PyErr.osErrENODEV)
  else (st, Except.ok (rxQGet q))

/-- One blocking `self._serial.read(...)` of the reader loop: either a
chunk of bytes, or any exception out of the device read. -/
inductive ReadEv where
  | chunk (data : List Nat)
  | fault
deriving DecidableEq

/-- `UART._rx_thread_fn`, driven by a finite trace of reads.  Returns
the sequence of queue entries produced (each completed packet as
`some p`, then the shutdown marker `none` pushed after the loop) and the
final value of `self._open` — the loop always clears it on exit.  A
device fault or an exception out of `_rx` is caught by the `except`
around the loop body and breaks the loop. -/
def rxThreadFn (m : PktModel) : RxState → List ReadEv → List (Option Packet) × Bool
  | _, [] => ([none], false)
  | _, ReadEv.fault :: _ => ([none], false)
  | s, ReadEv.chunk d :: evs =>
    match rx m s d with
    | (_, RxOut.err) => ([none], false)
    | (s2, RxOut.pkt p) =>
      let t := rxThreadFn m s2 evs
      (some p :: t.1, t.2)
    | (s2, RxOut.pending) => rxThreadFn m s2 evs

/-- Modelled from the spec: a concrete instance of the packet-class
interface, used to evaluate the theorems on explicit byte strings.  The
packet classes themselves are not under `src/`; the spec fixes their
contract (fixed `header_len()` per variant; `payload_len()` read from
the parsed header, any value including zero) and this instance follows
the standard HCI layouts consistent with the spec scenarios: ACL header
of 4 bytes carrying the payload length little-endian in bytes 2 and 3;
Event header of 2 bytes carrying the payload length in byte 1. -/
def hciModel : PktModel :=
  { aclHdrLen := 4
    evtHdrLen := 2
    aclPayloadLen := fun h => h.getD 2 0 + 256 * h.getD 3 0
    evtPayloadLen := fun h => h.getD 1 0 }

/-! Basic facts about one `_rx` call. -/

lemma ind_ne_none (k : PktKind) (hk : k = PktKind.acl ∨ k = PktKind.evt) :
    k.ind ≠ IND_NONE := by
  rcases hk with h | h <;> subst h <;> simp [PktKind.ind, IND_ACL, IND_EVT, IND_NONE]

lemma rx_nil (m : PktModel) (s : RxState) : rx m s [] = (s, RxOut.pending) := by
  simp [rx]

/-- A chunk shorter than the bytes still required is copied whole and
the call returns pending. -/
lemma rx_copy_partial (m : PktModel) (st : Nat) (k : PktKind) (d c : List Nat)
    (rem : Nat) (flag : Bool) (hne : c ≠ []) (hlt : c.length < rem) :
    rx m ⟨st, some ⟨k, d⟩, rem, flag⟩ c
      = (⟨st, some ⟨k, d ++ c⟩, rem - c.length, flag⟩, RxOut.pending) := by
  obtain ⟨b, t, rfl⟩ : ∃ b t, c = b :: t := by
    cases c with
    | nil => exact absurd rfl hne
    | cons b t => exact ⟨b, t, rfl⟩
  have hmin : min rem (t.length + 1) = t.length + 1 := by
    have := hlt
    simp at this
    omega
  have hlt2 : t.length + 1 < rem := by
    have := hlt
    simp at this
    omega
  simp [rx, hmin, hlt2]

/-- A chunk that exactly completes the awaited header bytes (and then
continues with `rest`) parses the header and goes on awaiting the
declared payload, within the same call. -/
lemma rx_red_hdr (m : PktModel) (st : Nat) (k : PktKind) (d h2 rest : List Nat)
    (hne : h2 ≠ []) (hst : st ≠ IND_NONE) :
    rx m ⟨st, some ⟨k, d⟩, h2.length, false⟩ (h2 ++ rest)
      = rx m ⟨st, some ⟨k, d ++ h2⟩, Packet.payloadLen m ⟨k, d ++ h2⟩, true⟩ rest := by
  obtain ⟨b, t, rfl⟩ : ∃ b t, h2 = b :: t := by
    cases h2 with
    | nil => exact absurd rfl hne
    | cons b t => exact ⟨b, t, rfl⟩
  have hmin : min (b :: t).length (b :: t ++ rest).length = (b :: t).length := by
    simp
  simp [rx, hmin, hst, List.take_left, List.drop_left]

/-- A chunk that exactly completes the awaited payload bytes finishes
the packet: the call hands it out and resets the state, discarding any
remaining bytes of the chunk. -/
lemma rx_red_pay (m : PktModel) (st : Nat) (k : PktKind) (d p2 rest : List Nat)
    (hne : p2 ≠ []) (hst : st ≠ IND_NONE) :
    rx m ⟨st, some ⟨k, d⟩, p2.length, true⟩ (p2 ++ rest)
      = (idleRx, RxOut.pkt ⟨k, d ++ p2⟩) := by
  obtain ⟨b, t, rfl⟩ : ∃ b t, p2 = b :: t := by
    cases p2 with
    | nil => exact absurd rfl hne
    | cons b t => exact ⟨b, t, rfl⟩
  have hmin : min (b :: t).length (b :: t ++ rest).length = (b :: t).length := by
    simp
  simp [rx, hmin, hst, List.take_left, idleRx]

/-- From the idle state, a legal indicator byte starts a fresh packet of
the matching variant awaiting its header. -/
lemma rx_ind_step (m : PktModel) (k : PktKind) (rest : List Nat)
    (hk : k = PktKind.acl ∨ k = PktKind.evt) :
    rx m idleRx (k.ind :: rest)
      = rx m ⟨k.ind, some ⟨k, []⟩, m.hdrLen k, false⟩ rest := by
  rcases hk with h | h <;> subst h <;>
    simp [rx, idleRx, IND_NONE, IND_ACL, IND_EVT, PktKind.ind,
      Packet.headerLen, PktModel.hdrLen]

/-- From the idle state, any other first byte makes the call raise, with
the offending byte recorded in `rx_state` and no packet in flight. -/
lemma rx_ind_err (m : PktModel) (b : Nat) (rest : List Nat)
    (hacl : b ≠ IND_ACL) (hevt : b ≠ IND_EVT) :
    rx m idleRx (b :: rest) = (⟨b, none, 0, false⟩, RxOut.err) := by
  simp [rx, idleRx, IND_NONE, hacl, hevt]

/-- From a state holding a completed packet (payload requirement already
zero, header parsed), the next nonempty call returns the packet at once
without consuming any of its own bytes — which are then discarded. -/
lemma rx_pend_ret (m : PktModel) (st : Nat) (k : PktKind) (d : List Nat)
    (b : Nat) (rest : List Nat) (hst : st ≠ IND_NONE) :
    rx m ⟨st, some ⟨k, d⟩, 0, true⟩ (b :: rest) = (idleRx, RxOut.pkt ⟨k, d⟩) := by
  simp [rx, hst, idleRx]

/-! Whole frames in a single call. -/

/-- A full valid frame with a nonempty payload, fed whole from idle,
yields its packet and returns to idle within the one call. -/
lemma rx_frame (m : PktModel) (k : PktKind) (hdr pay : List Nat)
    (hk : k = PktKind.acl ∨ k = PktKind.evt)
    (hh : hdr.length = m.hdrLen k) (hl0 : 0 < m.hdrLen k)
    (hp : Packet.payloadLen m ⟨k, hdr⟩ = pay.length) (hpay : pay ≠ []) :
    rx m idleRx (k.ind :: (hdr ++ pay)) = (idleRx, RxOut.pkt ⟨k, hdr ++ pay⟩) := by
  have hne : hdr ≠ [] := by
    intro h
    rw [h] at hh
    simp at hh
    omega
  rw [rx_ind_step m k _ hk, ← hh,
    rx_red_hdr m k.ind k [] hdr pay hne (ind_ne_none k hk)]
  simp only [List.nil_append]
  rw [hp]
  have hfin := rx_red_pay m k.ind k hdr pay [] hpay (ind_ne_none k hk)
  rw [List.append_nil] at hfin
  rw [hfin]

/-- A full valid frame whose header declares payload length zero, fed
whole from idle, completes the packet but the call returns pending: the
finished packet stays parked in the codec state. -/
lemma rx_frame_zero (m : PktModel) (k : PktKind) (hdr : List Nat)
    (hk : k = PktKind.acl ∨ k = PktKind.evt)
    (hh : hdr.length = m.hdrLen k) (hl0 : 0 < m.hdrLen k)
    (hp : Packet.payloadLen m ⟨k, hdr⟩ = 0) :
    rx m idleRx (k.ind :: hdr)
      = (⟨k.ind, some ⟨k, hdr⟩, 0, true⟩, RxOut.pending) := by
  have hne : hdr ≠ [] := by
    intro h
    rw [h] at hh
    simp at hh
    omega
  have hsh : k.ind :: hdr = k.ind :: (hdr ++ []) := by simp
  rw [hsh, rx_ind_step m k _ hk, ← hh,
    rx_red_hdr m k.ind k [] hdr [] hne (ind_ne_none k hk)]
  simp only [List.nil_append]
  rw [hp, rx_nil]

/-! Unfolding lemmas for `rxFeed`. -/

lemma rxFeed_nil (m : PktModel) (s : RxState) : rxFeed m s [] = (s, [], false) := rfl

lemma rxFeed_cons_pending (m : PktModel) (s s2 : RxState) (c : List Nat)
    (cs : List (List Nat)) (h : rx m s c = (s2, RxOut.pending)) :
    rxFeed m s (c :: cs) = rxFeed m s2 cs := by
  simp [rxFeed, h]

lemma rxFeed_cons_pkt (m : PktModel) (s s2 : RxState) (c : List Nat)
    (cs : List (List Nat)) (p : Packet) (h : rx m s c = (s2, RxOut.pkt p)) :
    rxFeed m s (c :: cs)
      = ((rxFeed m s2 cs).1, p :: (rxFeed m s2 cs).2.1, (rxFeed m s2 cs).2.2) := by
  simp [rxFeed, h]

/-! List bookkeeping. -/

lemma append_split {α : Type} (c j h p : List α) (he : c ++ j = h ++ p)
    (hl : h.length ≤ c.length) : ∃ t, c = h ++ t ∧ p = t ++ j := by
  have hc : c = h ++ c.drop h.length := by
    conv_lhs => rw [← List.take_append_drop h.length c]
    congr 1
    have hth := congrArg (List.take h.length) he
    rw [List.take_append_of_le_length hl, List.take_left] at hth
    exact hth
  refine ⟨c.drop h.length, hc, ?_⟩
  have h2 : h ++ (c.drop h.length ++ j) = h ++ p := by
    rw [← List.append_assoc, ← hc]
    exact he
  exact (List.append_cancel_left h2).symm

lemma nonempty_flatten_nil {cs : List (List Nat)} (hcs : ∀ c ∈ cs, c ≠ [])
    (hj : cs.flatten = []) : cs = [] := by
  cases cs with
  | nil => rfl
  | cons c cs =>
    rw [List.flatten_cons] at hj
    rcases List.append_eq_nil.mp hj with ⟨hc, _⟩
    exact absurd hc (hcs c (by simp))

/-! Feeding the tail of a frame as arbitrary nonempty fragments. -/

/-- Payload phase: the remaining payload `p2`, split into any nonempty
fragments, is accumulated and the packet finally delivered. -/
lemma rxFeed_pay (m : PktModel) (st : Nat) (k : PktKind) (cs : List (List Nat))
    (d p2 : List Nat) (hst : st ≠ IND_NONE) (hp2 : p2 ≠ [])
    (hcs : ∀ c ∈ cs, c ≠ []) (hj : cs.flatten = p2) :
    rxFeed m ⟨st, some ⟨k, d⟩, p2.length, true⟩ cs
      = (idleRx, [⟨k, d ++ p2⟩], false) := by
  induction cs generalizing d p2 with
  | nil =>
    rw [List.flatten_nil] at hj
    exact absurd hj.symm hp2
  | cons c cs ih =>
    rw [List.flatten_cons] at hj
    have hc : c ≠ [] := hcs c (by simp)
    have hcs2 : ∀ x ∈ cs, x ≠ [] := fun x hx => hcs x (by simp [hx])
    by_cases hrest : cs.flatten = []
    · have hcse : cs = [] := nonempty_flatten_nil hcs2 hrest
      subst hcse
      rw [List.flatten_nil, List.append_nil] at hj
      subst hj
      have hrx := rx_red_pay m st k d c [] hc hst
      rw [List.append_nil] at hrx
      rw [rxFeed_cons_pkt m _ _ _ _ _ hrx, rxFeed_nil]
    · have hlj := congrArg List.length hj
      simp only [List.length_append] at hlj
      have hjpos : 0 < cs.flatten.length := List.length_pos.mpr hrest
      have hlt : c.length < p2.length := by omega
      have hrx := rx_copy_partial m st k d c p2.length true hc hlt
      rw [rxFeed_cons_pending m _ _ _ _ hrx]
      have hlen : p2.length - c.length = cs.flatten.length := by omega
      rw [hlen, ih (d ++ c) cs.flatten hrest hcs2 rfl]
      rw [List.append_assoc, hj]

/-- Header phase: the remaining header `h2` followed by the whole
payload, split into any nonempty fragments, parses the header and then
either parks a zero-payload packet or delivers the packet. -/
lemma rxFeed_hdr (m : PktModel) (st : Nat) (k : PktKind) (pay : List Nat)
    (cs : List (List Nat)) (h1 h2 : List Nat) (hst : st ≠ IND_NONE)
    (hne : h2 ≠ []) (hcs : ∀ c ∈ cs, c ≠ []) (hj : cs.flatten = h2 ++ pay)
    (hp : Packet.payloadLen m ⟨k, h1 ++ h2⟩ = pay.length) :
    rxFeed m ⟨st, some ⟨k, h1⟩, h2.length, false⟩ cs
      = if pay = [] then (⟨st, some ⟨k, h1 ++ h2⟩, 0, true⟩, [], false)
        else (idleRx, [⟨k, h1 ++ (h2 ++ pay)⟩], false) := by
  induction cs generalizing h1 h2 with
  | nil =>
    rw [List.flatten_nil] at hj
    rcases List.append_eq_nil.mp hj.symm with ⟨hh2, _⟩
    exact absurd hh2 hne
  | cons c cs ih =>
    rw [List.flatten_cons] at hj
    have hc : c ≠ [] := hcs c (by simp)
    have hcs2 : ∀ x ∈ cs, x ≠ [] := fun x hx => hcs x (by simp [hx])
    rcases Nat.lt_or_ge c.length h2.length with hlen | hlen
    · -- the chunk ends inside the header
      obtain ⟨t, hh2, hjoin2⟩ := append_split h2 pay c cs.flatten hj.symm (le_of_lt hlen)
      have ht : t ≠ [] := by
        intro h
        rw [h, List.append_nil] at hh2
        rw [hh2] at hlen
        exact lt_irrefl _ hlen
      have hrx := rx_copy_partial m st k h1 c h2.length false hc hlen
      rw [rxFeed_cons_pending m _ _ _ _ hrx]
      have hlen2 : h2.length - c.length = t.length := by
        rw [hh2]
        simp
      have hpl : Packet.payloadLen m ⟨k, h1 ++ c ++ t⟩ = pay.length := by
        rw [List.append_assoc, ← hh2]
        exact hp
      rw [hlen2, ih (h1 ++ c) t ht hcs2 hjoin2 hpl]
      by_cases hpe : pay = [] <;> simp [hpe, hh2, List.append_assoc]
    · -- the chunk completes the header
      obtain ⟨cp, hcp, hpay⟩ := append_split c cs.flatten h2 pay hj hlen
      subst hcp
      subst hpay
      have hred := rx_red_hdr m st k h1 h2 cp hne hst
      rw [hp] at hred
      cases cp with
      | nil =>
        rw [rx_nil] at hred
        rw [rxFeed_cons_pending m _ _ _ _ hred]
        simp only [List.nil_append] at *
        by_cases hpe : cs.flatten = []
        · have hcse : cs = [] := nonempty_flatten_nil hcs2 hpe
          subst hcse
          rw [rxFeed_nil]
          simp [hpe]
        · rw [rxFeed_pay m st k cs (h1 ++ h2) cs.flatten hst hpe hcs2 rfl]
          simp [hpe, List.append_assoc]
      | cons cb ct =>
        by_cases hje : cs.flatten = []
        · have hcse : cs = [] := nonempty_flatten_nil hcs2 hje
          subst hcse
          rw [List.flatten_nil, List.append_nil] at hred ⊢
          have hfin := rx_red_pay m st k (h1 ++ h2) (cb :: ct) [] (by simp) hst
          rw [List.append_nil] at hfin
          rw [hfin] at hred
          rw [rxFeed_cons_pkt m _ _ _ _ _ hred, rxFeed_nil]
          simp [List.append_assoc]
        · have hjpos : 0 < cs.flatten.length := List.length_pos.mpr hje
          have hlt : (cb :: ct).length < ((cb :: ct) ++ cs.flatten).length := by
            simp only [List.length_append]
            omega
          have hcopy := rx_copy_partial m st k (h1 ++ h2) (cb :: ct)
            ((cb :: ct) ++ cs.flatten).length true (by simp) hlt
          rw [hcopy] at hred
          rw [rxFeed_cons_pending m _ _ _ _ hred]
          have hlen3 : ((cb :: ct) ++ cs.flatten).length - (cb :: ct).length
              = cs.flatten.length := by
            simp
          rw [hlen3, rxFeed_pay m st k cs (h1 ++ h2 ++ (cb :: ct)) cs.flatten hst hje hcs2 rfl]
          simp [List.append_assoc]

/-- Two chunk sequences whose first calls agree behave identically. -/
lemma rxFeed_first_congr (m : PktModel) (s t : RxState) (c d : List Nat)
    (cs : List (List Nat)) (h : rx m s c = rx m t d) :
    rxFeed m s (c :: cs) = rxFeed m t (d :: cs) := by
  simp only [rxFeed]
  rw [h]

/-- A full valid frame, split into any nonempty fragments, is decoded to
the same outcome: the packet is delivered once the last payload byte
arrives when the payload is nonempty, and is parked complete in the
codec state when the declared payload length is zero. -/
lemma rxFeed_frame (m : PktModel) (k : PktKind) (hdr pay : List Nat)
    (cs : List (List Nat)) (hk : k = PktKind.acl ∨ k = PktKind.evt)
    (hh : hdr.length = m.hdrLen k) (hl0 : 0 < m.hdrLen k)
    (hp : Packet.payloadLen m ⟨k, hdr⟩ = pay.length)
    (hcs : ∀ c ∈ cs, c ≠ []) (hj : cs.flatten = k.ind :: (hdr ++ pay)) :
    rxFeed m idleRx cs
      = if pay = [] then (⟨k.ind, some ⟨k, hdr⟩, 0, true⟩, [], false)
        else (idleRx, [⟨k, hdr ++ pay⟩], false) := by
  have hne : hdr ≠ [] := by
    intro h
    rw [h] at hh
    simp at hh
    omega
  cases cs with
  | nil =>
    rw [List.flatten_nil] at hj
    exact absurd hj (by simp)
  | cons c cs2 =>
    rw [List.flatten_cons] at hj
    have hc : c ≠ [] := hcs c (by simp)
    have hcs2 : ∀ x ∈ cs2, x ≠ [] := fun x hx => hcs x (by simp [hx])
    cases c with
    | nil => exact absurd rfl hc
    | cons a t =>
      rw [List.cons_append] at hj
      injection hj with ha hj2
      subst ha
      have hind := rx_ind_step m k t hk
      rw [← hh] at hind
      cases t with
      | nil =>
        rw [rx_nil] at hind
        rw [rxFeed_cons_pending m _ _ _ _ hind]
        rw [List.nil_append] at hj2
        have hfd := rxFeed_hdr m k.ind k pay cs2 [] hdr (ind_ne_none k hk) hne
          hcs2 hj2 (by simpa using hp)
        rw [hfd]
        by_cases hpe : pay = [] <;> simp [hpe]
      | cons cb ct =>
        rw [rxFeed_first_congr m idleRx ⟨k.ind, some ⟨k, []⟩, hdr.length, false⟩
          (k.ind :: cb :: ct) (cb :: ct) cs2 hind]
        have hfd := rxFeed_hdr m k.ind k pay ((cb :: ct) :: cs2) [] hdr
          (ind_ne_none k hk) hne
          (by
            intro x hx
            rcases List.mem_cons.mp hx with h | h
            · subst h; simp
            · exact hcs2 x h)
          (by rw [List.flatten_cons]; exact hj2) (by simpa using hp)
        rw [hfd]
        by_cases hpe : pay = [] <;> simp [hpe]

/-! Facts about the reader loop. -/

lemma rxThreadFn_fault (m : PktModel) (s : RxState) (post : List ReadEv) :
    rxThreadFn m s (ReadEv.fault :: post) = ([none], false) := rfl

lemma rxThreadFn_chunk_err (m : PktModel) (s s2 : RxState) (d : List Nat)
    (post : List ReadEv) (h : rx m s d = (s2, RxOut.err)) :
    rxThreadFn m s (ReadEv.chunk d :: post) = ([none], false) := by
  simp [rxThreadFn, h]

/-- Whatever the reads deliver, the queue entries produced by the reader
loop are completed packets followed by the single shutdown marker, and
the loop always clears the open flag on the way out. -/
lemma rxThreadFn_shape (m : PktModel) (evs : List ReadEv) (s : RxState) :
    ∃ ps : List Packet, rxThreadFn m s evs = (ps.map some ++ [none], false) := by
  induction evs generalizing s with
  | nil => exact ⟨[], rfl⟩
  | cons e evs ih =>
    cases e with
    | fault => exact ⟨[], rfl⟩
    | chunk d =>
      rcases hrx : rx m s d with ⟨s2, out⟩
      cases out with
      | pending =>
        obtain ⟨ps, hps⟩ := ih s2
        exact ⟨ps, by simp [rxThreadFn, hrx, hps]⟩
      | pkt p =>
        obtain ⟨ps, hps⟩ := ih s2
        exact ⟨p :: ps, by simp [rxThreadFn, hrx, hps]⟩
      | err => exact ⟨[], by simp [rxThreadFn, hrx]⟩

/-! The claims. -/

/-- C1: the claim demands that a single `decode` call on a chunk holding
two concatenated valid frames yields both packets in order with none
lost.  The code does not: evaluated on two concatenated valid Event
frames, the one call returns only the first packet and resets to idle,
so the bytes of the second frame are discarded — `_rx` returns at the
first completed packet and the remainder of the chunk is never
processed. -/
theorem claim_C1 :
    rx hciModel idleRx [4, 1, 1, 9, 4, 2, 0]
      = (idleRx, RxOut.pkt ⟨PktKind.evt, [1, 1, 9]⟩) := by
  calc rx hciModel idleRx [4, 1, 1, 9, 4, 2, 0]
      = rx hciModel ⟨4, some ⟨PktKind.evt, []⟩, hciModel.hdrLen PktKind.evt, false⟩
          [1, 1, 9, 4, 2, 0] :=
        rx_ind_step hciModel PktKind.evt [1, 1, 9, 4, 2, 0] (Or.inr rfl)
    _ = rx hciModel ⟨4, some ⟨PktKind.evt, [] ++ [1, 1]⟩,
          Packet.payloadLen hciModel ⟨PktKind.evt, [] ++ [1, 1]⟩, true⟩ [9, 4, 2, 0] :=
        rx_red_hdr hciModel 4 PktKind.evt [] [1, 1] [9, 4, 2, 0] (by decide) (by decide)
    _ = (idleRx, RxOut.pkt ⟨PktKind.evt, ([] ++ [1, 1]) ++ [9]⟩) :=
        rx_red_pay hciModel 4 PktKind.evt ([] ++ [1, 1]) [9] [4, 2, 0] (by decide) (by decide)
    _ = (idleRx, RxOut.pkt ⟨PktKind.evt, [1, 1, 9]⟩) := rfl

/-- C2 (counterexample): a valid single ACL frame declaring payload
length zero, fed whole from idle, makes `decode` return no packet at
all — the completed packet stays parked in the codec state — refuting
the claim that every valid single frame yields exactly one packet in
the same call. -/
theorem claim_C2_counterexample :
    rx hciModel idleRx [2, 0, 0, 0, 0]
      = (⟨2, some ⟨PktKind.acl, [0, 0, 0, 0]⟩, 0, true⟩, RxOut.pending) :=
  rx_frame_zero hciModel PktKind.acl [0, 0, 0, 0] (Or.inl rfl) (by decide) (by decide)
    (by decide)

/-- C2 (amended): for every valid single-frame byte sequence S whose
header declares a payload length of at least one, a single `decode`
call on S from idle returns exactly one packet whose accumulated header
and payload bytes equal those of S; when the declared payload length is
zero the call returns no packet and parks the completed packet for the
next call. -/
theorem claim_C2 (m : PktModel) (k : PktKind) (hdr pay : List Nat)
    (hk : k = PktKind.acl ∨ k = PktKind.evt)
    (hh : hdr.length = m.hdrLen k) (hl0 : 0 < m.hdrLen k)
    (hp : Packet.payloadLen m ⟨k, hdr⟩ = pay.length) :
    (0 < pay.length →
      rx m idleRx (k.ind :: (hdr ++ pay)) = (idleRx, RxOut.pkt ⟨k, hdr ++ pay⟩))
    ∧ (pay = [] →
      rx m idleRx (k.ind :: hdr)
        = (⟨k.ind, some ⟨k, hdr⟩, 0, true⟩, RxOut.pending)) := by
  constructor
  · intro hpos
    refine rx_frame m k hdr pay hk hh hl0 hp ?_
    intro h
    rw [h] at hpos
    simp at hpos
  · intro hpe
    refine rx_frame_zero m k hdr hk hh hl0 ?_
    rw [hp, hpe]
    rfl

/-- C2 (witness): a 3-byte-payload Event frame is delivered in the one
call; a zero-payload ACL frame is parked. -/
theorem claim_C2_witness :
    rx hciModel idleRx [4, 1, 3, 7, 8, 9]
      = (idleRx, RxOut.pkt ⟨PktKind.evt, [1, 3, 7, 8, 9]⟩)
    ∧ rx hciModel idleRx [2, 1, 0, 0, 0]
      = (⟨2, some ⟨PktKind.acl, [1, 0, 0, 0]⟩, 0, true⟩, RxOut.pending) :=
  ⟨(claim_C2 hciModel PktKind.evt [1, 3] [7, 8, 9] (Or.inr rfl) (by decide) (by decide)
      (by decide)).1 (by decide),
   (claim_C2 hciModel PktKind.acl [1, 0, 0, 0] [] (Or.inl rfl) (by decide) (by decide)
      (by decide)).2 rfl⟩

/-- C3: for every valid single-frame byte sequence S and every split of
S into contiguous nonempty fragments, feeding the fragments to `decode`
in order from idle produces exactly the same outcome — same final codec
state and same delivered packets — as feeding S as one whole chunk; in
particular, when the declared payload length is positive, exactly the
one packet of S is delivered. -/
theorem claim_C3 (m : PktModel) (k : PktKind) (hdr pay : List Nat)
    (cs : List (List Nat)) (hk : k = PktKind.acl ∨ k = PktKind.evt)
    (hh : hdr.length = m.hdrLen k) (hl0 : 0 < m.hdrLen k)
    (hp : Packet.payloadLen m ⟨k, hdr⟩ = pay.length)
    (hcs : ∀ c ∈ cs, c ≠ []) (hj : cs.flatten = k.ind :: (hdr ++ pay)) :
    rxFeed m idleRx cs = rxFeed m idleRx [k.ind :: (hdr ++ pay)]
    ∧ (0 < pay.length →
      rxFeed m idleRx cs = (idleRx, [⟨k, hdr ++ pay⟩], false)) := by
  have hL := rxFeed_frame m k hdr pay cs hk hh hl0 hp hcs hj
  have hR := rxFeed_frame m k hdr pay [k.ind :: (hdr ++ pay)] hk hh hl0 hp
    (by intro x hx; simp at hx; subst hx; simp) (by simp)
  constructor
  · rw [hL, hR]
  · intro hpos
    rw [hL]
    have hpe : pay ≠ [] := by
      intro h
      rw [h] at hpos
      simp at hpos
    simp [hpe]

/-- C3 (witness): the Event frame 04-01-02-05-06, split into the
fragments [04], [01], [02 05], [06], is reassembled into the single
packet with header 01-02 and payload 05-06. -/
theorem claim_C3_witness :
    rxFeed hciModel idleRx [[4], [1], [2, 5], [6]]
      = (idleRx, [⟨PktKind.evt, [1, 2, 5, 6]⟩], false) :=
  (claim_C3 hciModel PktKind.evt [1, 2] [5, 6] [[4], [1], [2, 5], [6]] (Or.inr rfl)
    (by decide) (by decide) (by decide) (by decide) (by decide)).2 (by decide)

/-- C4: from the idle state, a chunk whose first byte is any indicator
other than 2 (ACLData) or 4 (Event) makes `decode` raise — the
RuntimeError the spec maps to ProtocolError — aborting the chunk; the
codec is left with no packet in flight, and through the reader loop the
queue receives only the shutdown marker, never a partial packet. -/
theorem claim_C4 (m : PktModel) (b : Nat) (rest : List Nat)
    (hacl : b ≠ IND_ACL) (hevt : b ≠ IND_EVT) :
    rx m idleRx (b :: rest) = (⟨b, none, 0, false⟩, RxOut.err)
    ∧ (rx m idleRx (b :: rest)).1.rxPkt = none
    ∧ ∀ evs, rxThreadFn m idleRx (ReadEv.chunk (b :: rest) :: evs) = ([none], false) := by
  have h := rx_ind_err m b rest hacl hevt
  exact ⟨h, by rw [h], fun evs => rxThreadFn_chunk_err m idleRx _ _ evs h⟩

/-- C4 (witness): the unknown indicator 0x07 at a frame boundary. -/
theorem claim_C4_witness :
    rx hciModel idleRx [7, 1, 2] = (⟨7, none, 0, false⟩, RxOut.err)
    ∧ rxThreadFn hciModel idleRx [ReadEv.chunk [7, 1, 2]] = ([none], false) :=
  ⟨(claim_C4 hciModel 7 [1, 2] (by decide) (by decide)).1,
   (claim_C4 hciModel 7 [1, 2] (by decide) (by decide)).2.2 []⟩

/-- C5: any fault in the reader loop — a device read raising, or `_rx`
raising while decoding — stops the loop at once (later reads are never
issued), the open flag is cleared so the state is Closed and subsequent
send and receive calls fail, and the shutdown marker `none` is pushed as
the final queue entry, so a receive blocked on the empty queue is
released with the end-of-transport marker instead of hanging or seeing
the exception. -/
theorem claim_C5 (m : PktModel) (s : RxState) :
    (∀ post, rxThreadFn m s (ReadEv.fault :: post) = ([none], false))
    ∧ (∀ d s2 post, rx m s d = (s2, RxOut.err) →
        rxThreadFn m s (ReadEv.chunk d :: post) = ([none], false))
    ∧ (∀ evs, ∃ ps : List Packet, rxThreadFn m s evs = (ps.map some ++ [none], false))
    ∧ (∀ post, rxQGet ((rxThreadFn m s (ReadEv.fault :: post)).1) = some (none, []))
    ∧ (∀ p q, uartSend ⟨false, false⟩ p = (⟨false, false⟩, Except.error PyErr.osErrENODEV)
        ∧ uartRecv ⟨false, false⟩ q = (⟨false, false⟩, Except.error PyErr.osErrENODEV)) := by
  refine ⟨fun post => rfl, ?_, fun evs => rxThreadFn_shape m evs s, fun post => rfl, ?_⟩
  · intro d s2 post h
    exact rxThreadFn_chunk_err m s s2 d post h
  · intro p q
    exact ⟨rfl, rfl⟩

/-- C5 (witness): an immediate device fault, and a decode error on the
chunk 07, both terminate the loop with only the shutdown marker
enqueued and the open flag cleared. -/
theorem claim_C5_witness :
    rxThreadFn hciModel idleRx [ReadEv.fault] = ([none], false)
    ∧ rxThreadFn hciModel idleRx [ReadEv.chunk [7]] = ([none], false) :=
  ⟨(claim_C5 hciModel idleRx).1 [],
   (claim_C5 hciModel idleRx).2.1 [7] ⟨7, none, 0, false⟩ []
     (rx_ind_err hciModel 7 [] (by decide) (by decide))⟩

/-- C6: on both transports, `open` fails with the error the spec maps to
ConnectionStateError whenever the state is not Closed (already open or
closing), and `send` and `recv` fail likewise whenever the state is not
Open; in every such error case the lifecycle state is returned
unchanged. -/
theorem claim_C6 (stO stC : ConnSt) (p : Packet) (q : List (Option Packet))
    (baud : Option Nat)
    (hO : stO.isOpen = true ∨ stO.closing = true) (hC : stC.isOpen = false) :
    uartOpen stO baud = (stO, OpenRes.err PyErr.osErrEEXIST)
    ∧ tcpOpen stO = (stO, Except.error PyErr.osErrEEXIST)
    ∧ uartSend stC p = (stC, Except.error PyErr.osErrENODEV)
    ∧ uartRecv stC q = (stC, Except.error PyErr.osErrENODEV)
    ∧ tcpSend stC p = (stC, Except.error PyErr.osErrENODEV)
    ∧ tcpRecv stC q = (stC, Except.error PyErr.osErrENODEV) := by
  have hg : (stO.isOpen || stO.closing) = true := by
    rcases hO with h | h <;> simp [h]
  refine ⟨?_, ?_, ?_, ?_, ?_, ?_⟩ <;>
    simp [uartOpen, tcpOpen, uartSend, uartRecv, tcpSend, tcpRecv, hg, hC]

/-- C6 (witness): a second `open` while Open fails with EEXIST; `send`
and `recv` while Closed fail with ENODEV; states unchanged. -/
theorem claim_C6_witness :
    uartOpen ⟨true, false⟩ (some 115200) = (⟨true, false⟩, OpenRes.err PyErr.osErrEEXIST)
    ∧ tcpOpen ⟨true, false⟩ = (⟨true, false⟩, Except.error PyErr.osErrEEXIST)
    ∧ uartSend ⟨false, false⟩ ⟨PktKind.cmd, []⟩
        = (⟨false, false⟩, Except.error PyErr.osErrENODEV)
    ∧ uartRecv ⟨false, false⟩ [] = (⟨false, false⟩, Except.error PyErr.osErrENODEV)
    ∧ tcpSend ⟨false, false⟩ ⟨PktKind.cmd, []⟩
        = (⟨false, false⟩, Except.error PyErr.osErrENODEV)
    ∧ tcpRecv ⟨false, false⟩ [] = (⟨false, false⟩, Except.error PyErr.osErrENODEV) :=
  claim_C6 ⟨true, false⟩ ⟨false, false⟩ ⟨PktKind.cmd, []⟩ [] (some 115200) (Or.inl rfl) rfl

/-- C7: the claim describes `close` acquiring the write lock, passing
through Closing and returning the transport to Closed.  The code cannot
do any of it: its first statement is `async with self._tx_lock():`,
which calls the asyncio.Lock object — not callable — so every `close`
call raises TypeError immediately and leaves the state exactly as it
was (an Open transport stays Open and is never shut down). -/
theorem claim_C7 :
    uartClose ⟨true, false⟩ = (⟨true, false⟩, Except.error PyErr.typeErr)
    ∧ uartClose ⟨false, false⟩ = (⟨false, false⟩, Except.error PyErr.typeErr)
    ∧ ∀ st : ConnSt, uartClose st = (st, Except.error PyErr.typeErr) :=
  ⟨rfl, rfl, fun _ => rfl⟩

/-- C8: from the Closed state, `open` with the baudrate option absent,
or equal to the reserved initialization rate 9600, fails with the
RuntimeError the spec maps to ConfigError, before any device I/O
(`OpenRes.err`, never `OpenRes.devIo`), and the state stays Closed. -/
theorem claim_C8 :
    uartOpen ⟨false, false⟩ none = (⟨false, false⟩, OpenRes.err PyErr.rtMissingBaudrate)
    ∧ uartOpen ⟨false, false⟩ (some 9600)
        = (⟨false, false⟩, OpenRes.err PyErr.rtInvalidBaudrate)
    ∧ uartOpen ⟨false, false⟩ (some 0)
        = (⟨false, false⟩, OpenRes.err PyErr.rtMissingBaudrate) :=
  ⟨rfl, rfl, rfl⟩

/-- C9: `encode` prepends indicator 1 to Command packets and 2 to
ACLData packets; for any other variant (Event) it does fail, but with a
NameError — the source raises the undefined name `RuntimeException` —
rather than the RuntimeError the spec maps to ProtocolError. -/
theorem claim_C9 :
    prependInd ⟨PktKind.cmd, [3, 12, 0]⟩ = Except.ok (1 :: [3, 12, 0])
    ∧ prependInd ⟨PktKind.acl, [5, 6]⟩ = Except.ok (2 :: [5, 6])
    ∧ prependInd ⟨PktKind.evt, [14, 1, 0]⟩ = Except.error PyErr.nameErr
    ∧ ∀ d : List Nat,
        prependInd ⟨PktKind.cmd, d⟩ = Except.ok (IND_CMD :: d)
        ∧ prependInd ⟨PktKind.acl, d⟩ = Except.ok (IND_ACL :: d)
        ∧ prependInd ⟨PktKind.evt, d⟩ = Except.error PyErr.nameErr :=
  ⟨rfl, rfl, rfl, fun _ => ⟨rfl, rfl, rfl⟩⟩

/-- C10: a chunk that ends exactly as a zero-payload packet completes
returns no packet from that call; the completed packet is returned at
the start of the next nonempty call, and that next call consumes none
of its own bytes — they are discarded, never delivered. -/
theorem claim_C10 (m : PktModel) (k : PktKind) (hdr : List Nat)
    (hk : k = PktKind.acl ∨ k = PktKind.evt)
    (hh : hdr.length = m.hdrLen k) (hl0 : 0 < m.hdrLen k)
    (hp : Packet.payloadLen m ⟨k, hdr⟩ = 0) :
    rx m idleRx (k.ind :: hdr) = (⟨k.ind, some ⟨k, hdr⟩, 0, true⟩, RxOut.pending)
    ∧ ∀ b rest, rx m ⟨k.ind, some ⟨k, hdr⟩, 0, true⟩ (b :: rest)
        = (idleRx, RxOut.pkt ⟨k, hdr⟩) :=
  ⟨rx_frame_zero m k hdr hk hh hl0 hp,
   fun b rest => rx_pend_ret m k.ind k hdr b rest (ind_ne_none k hk)⟩

/-- C10 (witness): the zero-payload Event frame 04-05-00 is parked, then
delivered at the next call, whose own bytes 01-02-03 vanish. -/
theorem claim_C10_witness :
    rx hciModel idleRx [4, 5, 0]
      = (⟨4, some ⟨PktKind.evt, [5, 0]⟩, 0, true⟩, RxOut.pending)
    ∧ rx hciModel ⟨4, some ⟨PktKind.evt, [5, 0]⟩, 0, true⟩ [1, 2, 3]
      = (idleRx, RxOut.pkt ⟨PktKind.evt, [5, 0]⟩) :=
  ⟨(claim_C10 hciModel PktKind.evt [5, 0] (Or.inr rfl) (by decide) (by decide)
      (by decide)).1,
   (claim_C10 hciModel PktKind.evt [5, 0] (Or.inr rfl) (by decide) (by decide)
      (by decide)).2 1 [2, 3]⟩

end Treble
